import Mathlib

set_option maxRecDepth 4000

namespace Theta

/-- Node kind tags of the AST, mirroring the ASTNode::Types enumeration used by the
LiteralInlinerPass dispatch in src/src/compiler/optimization/LiteralInlinerPass.cpp. -/
inductive NType where
  | CAPSULE
  | BLOCK
  | ASSIGNMENT
  | IDENTIFIER
  | SYMBOL
  | ENUM
  | TYPE_DECLARATION
  | FUNCTION_DECLARATION
  | FUNCTION_INVOCATION
  | NUMBER_LITERAL
  | STRING_LITERAL
  | BOOLEAN_LITERAL
  | AST_NODE_LIST
  | LINK
  deriving DecidableEq, Repr

/-- Shallow embedding of Theta::ASTNode. A node carries its kind tag, a unique node
id (getId in the source), the parent back-reference stored as the parent's id, one
string payload standing for the variant-specific datum (identifier name, symbol text
with its leading sigil, literal value, type tag, or capsule name), the owned
left/right/value children, and the owned element sequence (ASTNodeList / BlockNode /
EnumNode elements). -/
inductive ASTNode : Type where
  | mk (ntype : NType) (nid : Nat) (parentId : Option Nat) (sval : String)
       (left : Option ASTNode) (right : Option ASTNode) (value : Option ASTNode)
       (elements : List ASTNode)

/-- Node kind accessor, getNodeType in the source. -/
def ASTNode.getNodeType : ASTNode → NType
  | .mk t _ _ _ _ _ _ _ => t

/-- Unique node id accessor, getId in the source. -/
def ASTNode.getId : ASTNode → Nat
  | .mk _ i _ _ _ _ _ _ => i

/-- Parent back-reference (as the parent's node id), getParent in the source. -/
def ASTNode.getParentId : ASTNode → Option Nat
  | .mk _ _ p _ _ _ _ _ => p

/-- String payload accessor; stands for getIdentifier / getSymbol / getLiteralValue /
getType / getName depending on the node variant. -/
def ASTNode.sval : ASTNode → String
  | .mk _ _ _ s _ _ _ _ => s

/-- Left child accessor, getLeft in the source. -/
def ASTNode.getLeft : ASTNode → Option ASTNode
  | .mk _ _ _ _ l _ _ _ => l

/-- Right child accessor, getRight in the source. -/
def ASTNode.getRight : ASTNode → Option ASTNode
  | .mk _ _ _ _ _ r _ _ => r

/-- Value child accessor, getValue in the source. -/
def ASTNode.getValue : ASTNode → Option ASTNode
  | .mk _ _ _ _ _ _ v _ => v

/-- Element sequence accessor, getElements in the source. -/
def ASTNode.getElements : ASTNode → List ASTNode
  | .mk _ _ _ _ _ _ _ es => es

/-- Rewrites the string payload in place; models TypeDeclarationNode::setType. -/
def ASTNode.setSval : ASTNode → String → ASTNode
  | .mk t i p _ l r v es, s => .mk t i p s l r v es

/-- Replaces the value child; models ASTNodeList::setElements being written back into
the capsule (hoistNecessary rebuilds the capsule body). -/
def ASTNode.setValue : ASTNode → Option ASTNode → ASTNode
  | .mk t i p s l r _ es, v => .mk t i p s l r v es

/-- Replaces the element sequence; models ASTNodeList::setElements. -/
def ASTNode.setElements : ASTNode → List ASTNode → ASTNode
  | .mk t i p s l r v _, es => .mk t i p s l r v es

/-- Rebuilds a node with new children, keeping kind, id, parent and payload. Used by
the traversal driver to splice optimized children back into their owning slots. -/
def ASTNode.withChildren : ASTNode → Option ASTNode → Option ASTNode → Option ASTNode → List ASTNode → ASTNode
  | .mk t i p s _ _ _ _, l, r, v, es => .mk t i p s l r v es

/-- Modelled from the spec: DataTypes.hpp is not under src; the primitive type tags
NUMBER, STRING, BOOLEAN referenced by the pass. -/
def DataTypes.NUMBER : String := "Number"

/-- Modelled from the spec: the STRING primitive type tag. -/
def DataTypes.STRING : String := "String"

/-- Modelled from the spec: the BOOLEAN primitive type tag. -/
def DataTypes.BOOLEAN : String := "Boolean"

/-- Constructor for a LiteralNode as built by the pass (LiteralNode.hpp is not under
src; following the constructor convention visible in CapsuleNode.hpp, the trailing
argument is the parent back-reference, recorded here as an optional parent id). The
fresh node receives the id supplied by the caller's id supply. -/
def LiteralNode (t : NType) (v : String) (parentId : Option Nat) (nid : Nat) : ASTNode :=
  .mk t nid parentId v none none none []

/-- Constructor for a TypeDeclarationNode as built by the pass
(TypeDeclarationNode.hpp is not under src; same convention as LiteralNode). -/
def TypeDeclarationNode (t : String) (parentId : Option Nat) (nid : Nat) : ASTNode :=
  .mk .TYPE_DECLARATION nid parentId t none none none []

/-- One binding frame of a symbol table: an association list from keys to nodes,
most recently inserted first. -/
abbrev Frame := List (String × ASTNode)

/-- Modelled from the spec: SymbolTableStack (its header is not under src). A stack
of binding frames, innermost frame first. -/
abbrev Stack := List Frame

/-- Looks a key up in one frame. -/
def frameLookup (f : Frame) (k : String) : Option ASTNode :=
  match f with
  | [] => none
  | (k2, v) :: rest => if k2 = k then some v else frameLookup rest k

/-- Modelled from the spec: lookup searches frames from innermost to outermost and
returns the first match. -/
def stackLookup (s : Stack) (k : String) : Option ASTNode :=
  match s with
  | [] => none
  | f :: rest =>
    match frameLookup f k with
    | some v => some v
    | none => stackLookup rest k

/-- Modelled from the spec: insert adds a binding to the top frame only, and is a
failing no-op if the key already exists in that top frame (or if no frame exists). -/
def stackInsert (s : Stack) (k : String) (v : ASTNode) : Stack :=
  match s with
  | [] => []
  | f :: rest => if (frameLookup f k).isSome then f :: rest else ((k, v) :: f) :: rest

/-- Pass state threaded through the rewrite: the two symbol table stacks owned by the
LiteralInlinerPass, the shared diagnostics collector (recording the identifier named
by each IllegalReassignmentError), and the id supply for freshly constructed nodes. -/
structure PassState where
  hoistedScope : Stack
  localScope : Stack
  diags : List String
  nextId : Nat

/-- Modelled from the spec: lookupInScope is declared in the missing
LiteralInlinerPass.hpp; the spec's lookup policy is local scope first, hoisted scope
as fallback. -/
def lookupInScope (st : PassState) (key : String) : Option ASTNode :=
  match stackLookup st.localScope key with
  | some v => some v
  | none => stackLookup st.hoistedScope key

/-- Tests whether a node kind is one of the three literal kinds the pass inlines. -/
def isLiteralNodeType (t : NType) : Bool :=
  t = .NUMBER_LITERAL || t = .STRING_LITERAL || t = .BOOLEAN_LITERAL

/-- LiteralInlinerPass::substituteIdentifiers. Skips identifiers whose own value slot
is a type declaration (declaration-site identifiers); otherwise looks the name up in
the hoisted scope, overridden by a hit in the local scope, and if the hit is a
Number/String/Boolean literal replaces the identifier with a freshly constructed
literal of the same kind and value. The source passes the replaced identifier node
itself as the new literal's parent argument. Scopes are not modified. -/
def substituteIdentifiers (ast : ASTNode) (st : PassState) : ASTNode × PassState :=
  if (match ast.getValue with
      | some v => v.getNodeType == NType.TYPE_DECLARATION
      | none => false) then
    (ast, st)
  else
    let foundIdentifier := stackLookup st.hoistedScope ast.sval
    let foundInScope := stackLookup st.localScope ast.sval
    let foundIdentifier := if foundInScope.isSome then foundInScope else foundIdentifier
    match foundIdentifier with
    | none => (ast, st)
    | some v =>
      if isLiteralNodeType v.getNodeType then
        (LiteralNode v.getNodeType v.sval (some ast.getId) st.nextId,
         { st with nextId := st.nextId + 1 })
      else (ast, st)

/-- LiteralInlinerPass::remapEnumTypeReferences. Looks the type tag up via
lookupInScope; no hit leaves the node unchanged; a hit is downcast to a type
declaration and its tag written into this node. A hit that is not a type declaration
makes the downcast yield null and the subsequent getType dereference crash, modelled
as the failing result none. -/
def remapEnumTypeReferences (ast : ASTNode) (st : PassState) : Option ASTNode :=
  match lookupInScope st ast.sval with
  | none => some ast
  | some r =>
    if r.getNodeType = NType.TYPE_DECLARATION then some (ast.setSval r.sval) else none

/-- Modelled from the spec: Compiler.cpp is not under src (Compiler.hpp only declares
the naming utilities). Serializes an ordered list of parameter type tags, each
wrapped in angle brackets, so the key records arity and parameter types in order. -/
def serializeTypeTags (ts : List String) : String :=
  match ts with
  | [] => ""
  | t :: rest => "<" ++ t ++ ">" ++ serializeTypeTags rest

/-- Reads the parameter type tags of a function declaration node: the declaration's
elements are its parameters, identifier nodes whose value slot is the parameter's
type declaration. -/
def declarationParamTypeTags (node : ASTNode) : List String :=
  node.getElements.map (fun p =>
    match p.getValue with
    | some td => td.sval
    | none => "")

/-- Modelled from the spec: Compiler::getQualifiedFunctionIdentifier derives a scope
key from the base name plus a serialization of the declaration's parameter type
signature (ordered, including arity). -/
def getQualifiedFunctionIdentifier (variableName : String) (node : ASTNode) : String :=
  variableName ++ serializeTypeTags (declarationParamTypeTags node)

/-- Reads the parameter type tags of a standalone function type signature: the
signature's elements are the parameter type declarations themselves. -/
def typeSignatureParamTags (typeSig : ASTNode) : List String :=
  typeSig.getElements.map ASTNode.sval

/-- Modelled from the spec: Compiler::getQualifiedFunctionIdentifierFromTypeSignature
computes the same key directly from a standalone type signature. -/
def getQualifiedFunctionIdentifierFromTypeSignature (variableName : String) (typeSig : ASTNode) : String :=
  variableName ++ serializeTypeTags (typeSignatureParamTags typeSig)

/-- Extracts the standalone function type signature of a declaration node: a type
declaration whose elements are fresh type declarations carrying the parameters'
type tags in order. -/
def functionTypeSignatureOf (decl : ASTNode) : ASTNode :=
  ASTNode.mk .TYPE_DECLARATION 0 none "Function" none none none
    (decl.getElements.map (fun p =>
      match p.getValue with
      | some td => ASTNode.mk .TYPE_DECLARATION 0 none td.sval none none none []
      | none => ASTNode.mk .TYPE_DECLARATION 0 none "" none none none []))

/-- LiteralInlinerPass::bindIdentifierToScope. Reads the left-hand identifier's name;
a function-declaration right-hand side is keyed by the qualified function identifier,
anything else by the plain name; a lookup hit anywhere in the target stack appends
one IllegalReassignmentError naming the plain identifier and skips the insertion,
otherwise the right-hand side node is inserted into the top frame. The result none
models the null dereference the source performs when the assignment lacks a
left-hand identifier or a right-hand side. -/
def bindIdentifierToScope (ast : ASTNode) (scope : Stack) (diags : List String) :
    Option (Stack × List String) :=
  match ast.getLeft with
  | none => none
  | some lhs =>
    let identifier := lhs.sval
    match ast.getRight with
    | none => none
    | some rhs =>
      if rhs.getNodeType == NType.FUNCTION_DECLARATION then
        let uniqueFuncIdentifier := getQualifiedFunctionIdentifier identifier rhs
        match stackLookup scope uniqueFuncIdentifier with
        | some _ => some (scope, diags ++ [identifier])
        | none => some (stackInsert scope uniqueFuncIdentifier rhs, diags)
      else
        match stackLookup scope identifier with
        | some _ => some (scope, diags ++ [identifier])
        | none => some (stackInsert scope identifier rhs, diags)

/-- Reads the base identifier of an enum node; EnumNode.hpp is not under src, the
enum's identifier child is modelled in the value slot. -/
def enumBaseIdentifier (node : ASTNode) : Option String :=
  match node.getValue with
  | none => none
  | some idNode =>
    if idNode.getNodeType == NType.IDENTIFIER then some idNode.sval else none

/-- The scope key of an enum element: the base identifier, a dot, and the element's
symbol text with its leading sigil stripped (getSymbol().substr(1) in the source). -/
def enumElKey (base : String) (el : ASTNode) : String := base ++ "." ++ (el.sval.drop 1)

/-- Element loop of LiteralInlinerPass::unpackEnumElementsInScope: for the element at
index i, the key is the base identifier, a dot, and the element's symbol text with
its leading sigil stripped; a lookup hit appends one IllegalReassignmentError naming
that key and stops the whole unpacking at once (no base binding is made); otherwise
a freshly constructed Number literal holding the decimal rendering of i is inserted
and the loop continues. After all elements, the bare base identifier is bound to a
freshly constructed NUMBER type declaration. A non-symbol element makes the source's
downcast crash, modelled as none. -/
def unpackGo (base : String) (i : Nat) (els : List ASTNode) (scope : Stack)
    (diags : List String) (nextId : Nat) : Option (Stack × List String × Nat) :=
  match els with
  | [] =>
    some (stackInsert scope base (TypeDeclarationNode DataTypes.NUMBER none nextId),
          diags, nextId + 1)
  | el :: rest =>
    if el.getNodeType == NType.SYMBOL then
      let enumElIdentifier := enumElKey base el
      match stackLookup scope enumElIdentifier with
      | some _ => some (scope, diags ++ [enumElIdentifier], nextId)
      | none =>
        unpackGo base (i + 1) rest
          (stackInsert scope enumElIdentifier
            (LiteralNode .NUMBER_LITERAL (toString i) none nextId))
          diags (nextId + 1)
    else none

/-- LiteralInlinerPass::unpackEnumElementsInScope: reads the enum's base identifier
and runs the element loop from index 0. -/
def unpackEnumElementsInScope (node : ASTNode) (scope : Stack) (diags : List String)
    (nextId : Nat) : Option (Stack × List String × Nat) :=
  match enumBaseIdentifier node with
  | none => none
  | some base => unpackGo base 0 node.getElements scope diags nextId

/-- LiteralInlinerPass::isLiteralAssignment: non-assignments are not literal
assignments; otherwise the declared type is read from the left identifier's value
slot downcast to a type declaration (a failing downcast or missing child crashes,
modelled as none) and compared against the right-hand side's literal kind. -/
def isLiteralAssignment (ast : ASTNode) : Option Bool :=
  if ast.getNodeType != NType.ASSIGNMENT then some false
  else
    match ast.getLeft with
    | none => none
    | some lhs =>
      match lhs.getValue with
      | none => none
      | some td =>
        if td.getNodeType != NType.TYPE_DECLARATION then none
        else
          let identifierType := td.sval
          match ast.getRight with
          | none => none
          | some rhs =>
            some ((rhs.getNodeType == NType.BOOLEAN_LITERAL && identifierType == DataTypes.BOOLEAN) ||
                  (rhs.getNodeType == NType.NUMBER_LITERAL && identifierType == DataTypes.NUMBER) ||
                  (rhs.getNodeType == NType.STRING_LITERAL && identifierType == DataTypes.STRING))

/-- Evaluates the source's last-statement test for an assignment: the stored parent
is a block and the block's last element carries the assignment's id. The source
dereferences the parent pointer and calls back() on the element vector, so a missing
parent, or an empty block element list, crashes (none). The short-circuit of the
source's conjunction is preserved by the caller, which only evaluates this test
when isLiteralAssignment held. -/
def isLastElementOfParentBlock (parentNode : Option ASTNode) (ast : ASTNode) : Option Bool :=
  match parentNode with
  | none => none
  | some p =>
    if p.getNodeType == NType.BLOCK then
      match p.getElements.getLast? with
      | none => none
      | some lastEl => some (lastEl.getId == ast.getId)
    else some false

/-- LiteralInlinerPass::optimizeAST, the per-node dispatch: identifiers are
substituted; type declarations are remapped; enums are unpacked into the local scope
and deleted (result node none); assignments that are not capsule direct children are
bound into the local scope and deleted exactly when isLiteralAssignment holds and
the node is not the last element of its parent block; everything else is untouched.
Crashes of the callees propagate as Except.error. -/
def optimizeAST (ast : ASTNode) (parentNode : Option ASTNode) (isCapsuleDirectChild : Bool)
    (st : PassState) : Except String (Option ASTNode × PassState) :=
  if ast.getNodeType == NType.IDENTIFIER then
    let (a2, st2) := substituteIdentifiers ast st
    .ok (some a2, st2)
  else if ast.getNodeType == NType.TYPE_DECLARATION then
    match remapEnumTypeReferences ast st with
    | none => .error "remapEnumTypeReferences: null dereference"
    | some a2 => .ok (some a2, st)
  else if ast.getNodeType == NType.ENUM then
    match unpackEnumElementsInScope ast st.localScope st.diags st.nextId with
    | none => .error "unpackEnumElementsInScope: null dereference"
    | some (s2, d2, n2) =>
      .ok (none, { st with localScope := s2, diags := d2, nextId := n2 })
  else if ast.getNodeType == NType.ASSIGNMENT && !isCapsuleDirectChild then
    match bindIdentifierToScope ast st.localScope st.diags with
    | none => .error "bindIdentifierToScope: null dereference"
    | some (s2, d2) =>
      let st2 := { st with localScope := s2, diags := d2 }
      match isLiteralAssignment ast with
      | none => .error "isLiteralAssignment: null dereference"
      | some false => .ok (some ast, st2)
      | some true =>
        match isLastElementOfParentBlock parentNode ast with
        | none => .error "optimizeAST: null parent dereference"
        | some isLast => if isLast then .ok (some ast, st2) else .ok (none, st2)
  else
    .ok (some ast, st)

/-- Walk of LiteralInlinerPass::hoistNecessary over the capsule's top-level element
list: each enum is unpacked into the hoisted scope and its index recorded for
removal; each assignment is bound into the hoisted scope; everything else is
skipped. Crashes of the callees propagate as none. -/
def hoistLoop (els : List ASTNode) (i : Nat) (scope : Stack) (diags : List String)
    (nextId : Nat) (removeAtIndices : List Nat) :
    Option (Stack × List String × Nat × List Nat) :=
  match els with
  | [] => some (scope, diags, nextId, removeAtIndices)
  | el :: rest =>
    if el.getNodeType == NType.ENUM then
      match unpackEnumElementsInScope el scope diags nextId with
      | none => none
      | some (s2, d2, n2) => hoistLoop rest (i + 1) s2 d2 n2 (removeAtIndices ++ [i])
    else if el.getNodeType == NType.ASSIGNMENT then
      match bindIdentifierToScope el scope diags with
      | none => none
      | some (s2, d2) => hoistLoop rest (i + 1) s2 d2 nextId removeAtIndices
    else hoistLoop rest (i + 1) scope diags nextId removeAtIndices

/-- Physical removal step of hoistNecessary: the recorded indices are erased from
the element list in reverse index order, keeping earlier indices valid. -/
def removeIndicesRev (els : List ASTNode) (idxs : List Nat) : List ASTNode :=
  idxs.foldr (fun i acc => acc.eraseIdx i) els

/-- LiteralInlinerPass::hoistNecessary: enters a fresh hoisted scope frame, walks the
capsule's top-level element list (the capsule's value child is the ASTNodeList)
binding assignments and unpacking enums into the hoisted scope, then erases the
recorded enum indices in reverse order and writes the element list back. -/
def hoistNecessary (ast : ASTNode) (st : PassState) : Option (ASTNode × PassState) :=
  match ast.getValue with
  | none => none
  | some nodeList =>
    let topLevelElements := nodeList.getElements
    let hoisted0 : Stack := [] :: st.hoistedScope
    match hoistLoop topLevelElements 0 hoisted0 st.diags st.nextId [] with
    | none => none
    | some (s2, d2, n2, removeAtIndices) =>
      let els2 := removeIndicesRev topLevelElements removeAtIndices
      some (ast.setValue (some (nodeList.setElements els2)),
            { st with hoistedScope := s2, diags := d2, nextId := n2 })

/-- Modelled from the spec: the nodes that own a lexical scope. CapsuleNode.hpp (in
src) overrides hasOwnScope to true; the spec's local stack is entered and exited per
nested lexical block, and function bodies introduce their own scope likewise. -/
def hasOwnScope (t : NType) : Bool :=
  t == .CAPSULE || t == .BLOCK || t == .FUNCTION_DECLARATION

/-- Runs a rewrite step over each element of an owned sequence in order, threading
the pass state; elements rewritten to absent are removed from the owning sequence by
this caller, as the pass interface prescribes. -/
def traverseElemsWith (f : ASTNode → PassState → Except String (Option ASTNode × PassState)) :
    List ASTNode → PassState → Except String (List ASTNode × PassState)
  | [], st => .ok ([], st)
  | e :: rest, st => do
    let (r, st1) ← f e st
    let (rs, st2) ← traverseElemsWith f rest st1
    pure ((match r with | some n => n :: rs | none => rs), st2)

/-- Modelled from the spec: the traversal driver (OptimizationPass) is not under
src. Depth-first walk with node kind dispatch: a node owning a lexical scope pushes
a local frame around its subtree; a capsule first runs the hoisting phase; children
(left, right, value, then elements) are rewritten before the node itself is
dispatched through optimizeAST, and absent results are spliced out of their owning
slot by the caller; elements of a node list directly under a capsule are flagged as
capsule direct children. The fuel argument bounds recursion depth and is in surplus
whenever the walk is run. -/
def traverse : Nat → ASTNode → Option ASTNode → Bool → PassState →
    Except String (Option ASTNode × PassState)
  | 0, _, _, _, _ => .error "traverse: out of fuel"
  | fuel + 1, ast, parentNode, isCapsuleDirectChild, st0 => do
    let ownScope := hasOwnScope ast.getNodeType
    let st1 := if ownScope then { st0 with localScope := [] :: st0.localScope } else st0
    let hoistRes :=
      if ast.getNodeType == NType.CAPSULE then hoistNecessary ast st1 else some (ast, st1)
    match hoistRes with
    | none => .error "hoistNecessary: null dereference"
    | some (ast1, st2) => do
      let elemFlag := ast1.getNodeType == NType.AST_NODE_LIST &&
        (match parentNode with
         | some p => p.getNodeType == NType.CAPSULE
         | none => false)
      let (newLeft, st3) ←
        match ast1.getLeft with
        | none => Except.ok (none, st2)
        | some c => traverse fuel c (some ast1) false st2
      let (newRight, st4) ←
        match ast1.getRight with
        | none => Except.ok (none, st3)
        | some c => traverse fuel c (some ast1) false st3
      let (newValue, st5) ←
        match ast1.getValue with
        | none => Except.ok (none, st4)
        | some c => traverse fuel c (some ast1) false st4
      let (newElems, st6) ←
        traverseElemsWith (fun e s => traverse fuel e (some ast1) elemFlag s)
          ast1.getElements st5
      let ast2 := ast1.withChildren newLeft newRight newValue newElems
      let (res, st7) ← optimizeAST ast2 parentNode isCapsuleDirectChild st6
      let stFinal := if ownScope then { st7 with localScope := st7.localScope.tail } else st7
      pure (res, stFinal)

/-- One invocation of the Literal Inlining Pass on a capsule AST root: scope state is
derived fresh (empty hoisted and local stacks), the diagnostics collector starts from
the supplied contents, and fresh node ids are drawn starting at the supplied id. -/
def runPass (fuel : Nat) (ast : ASTNode) (startId : Nat) :
    Except String (Option ASTNode × PassState) :=
  traverse fuel ast none false (PassState.mk [] [] [] startId)

/-- Concrete type declaration node for the Number primitive, used by the sample
trees below. -/
def exTdNum (nid pid : Nat) : ASTNode :=
  .mk .TYPE_DECLARATION nid (some pid) "Number" none none none []

/-- Concrete declaration-site identifier: an identifier whose value slot carries its
declared-type annotation, as on the left-hand side of an assignment. -/
def exDeclIdent (nm : String) (nid tdId pid : Nat) : ASTNode :=
  .mk .IDENTIFIER nid (some pid) nm none none (some (exTdNum tdId nid)) []

/-- Concrete number literal node. -/
def exNumLit (v : String) (nid : Nat) (pid : Option Nat) : ASTNode :=
  .mk .NUMBER_LITERAL nid pid v none none none []

/-- Concrete top-level assignment x: Number = 5 of the sample capsule. -/
def exAssign1 : ASTNode :=
  .mk .ASSIGNMENT 2 (some 1) "" (some (exDeclIdent "x" 3 4 2)) (some (exNumLit "5" 5 (some 2))) none []

/-- Concrete top-level assignment x: Number = 6 of the sample capsule, re-declaring
the same identifier. -/
def exAssign2 : ASTNode :=
  .mk .ASSIGNMENT 6 (some 1) "" (some (exDeclIdent "x" 7 8 6)) (some (exNumLit "6" 9 (some 6))) none []

/-- Concrete top-level element list holding the two colliding declarations. -/
def exNodeList : ASTNode := .mk .AST_NODE_LIST 1 (some 0) "" none none none [exAssign1, exAssign2]

/-- Concrete capsule whose body re-declares x twice; it contains no enum and no
elidable literal assignment (top-level declarations are never elided), and the pass
maps it to itself, so it is its own already-optimized form. -/
def exCapsule : ASTNode := .mk .CAPSULE 0 none "Main" none none (some exNodeList) []

/-- Concrete use-site identifier occurrence of x (node id 7, structural parent id 3),
with no type annotation in its value slot. -/
def exUseIdent : ASTNode := .mk .IDENTIFIER 7 (some 3) "x" none none none []

/-- Pass state whose local scope binds x to a number literal, with id supply at 50. -/
def exStateLocalX : PassState :=
  PassState.mk [] [[("x", exNumLit "5" 20 none)]] [] 50

/-- C6. Running the Literal Inlining Pass on the sample capsule returns the capsule
unchanged while appending one Illegal-Reassignment diagnostic for x, with no fresh
node ids drawn and the hoisted scope holding the single binding of x to the first
literal. Because the output tree equals the input tree, this very equation is also
the second run on the already-optimized tree: that tree has no enum node and no
elidable literal assignment, yet every re-run appends a new diagnostic, contradicting
the round-trip property the specification states. -/
theorem rerun_appends_duplicate_diagnostic :
    runPass 50 exCapsule 100 =
      .ok (some exCapsule, PassState.mk [[("x", exNumLit "5" 5 (some 2))]] [] ["x"] 100) := rfl

/-- C8. Identifier substitution at a use site of x (node id 7, whose structural
parent has id 3) produces a fresh number literal whose parent back-reference is the
replaced identifier's own id 7, not the identifier's former parent id 3: the source
passes the identifier node itself as the constructor's parent argument, so the
invariant that a child's parent back-reference points to its current structural
owner is broken by substitution. -/
theorem substituted_literal_parent_is_replaced_identifier :
    (substituteIdentifiers exUseIdent exStateLocalX).1.getParentId = some 7 ∧
    exUseIdent.getParentId = some 3 ∧
    (substituteIdentifiers exUseIdent exStateLocalX).1.getNodeType = NType.NUMBER_LITERAL ∧
    (substituteIdentifiers exUseIdent exStateLocalX).1.sval = "5" :=
  ⟨rfl, rfl, rfl, rfl⟩

/-- C2 counterexample. A declaration-site identifier occurrence of x (its value slot
is a type declaration) whose name resolves in the local scope to a number literal
binding is returned untouched by substituteIdentifiers — still an identifier, not a
freshly constructed literal — refuting the claim for such occurrences. -/
theorem declaration_site_identifier_not_replaced :
    stackLookup exStateLocalX.localScope (exDeclIdent "x" 7 8 6).sval =
      some (exNumLit "5" 20 none) ∧
    substituteIdentifiers (exDeclIdent "x" 7 8 6) exStateLocalX =
      ((exDeclIdent "x" 7 8 6), exStateLocalX) :=
  ⟨rfl, rfl⟩

/-- Concrete block holding the two colliding literal declarations of x followed by a
trailing literal statement, so neither declaration is the block's last element. -/
def exBlock : ASTNode :=
  .mk .BLOCK 10 (some 9) "" none none none [exAssign1, exAssign2, exNumLit "7" 30 (some 10)]

/-- Pass state as it stands when the second declaration of the block is dispatched:
the local scope already binds x from the first declaration. -/
def exStateAfterFirst : PassState :=
  PassState.mk [] [[("x", exNumLit "5" 5 (some 2))]] [] 200

/-- C3 counterexample. Dispatching the second, colliding literal declaration of the
block: its scope binding fails (the scope is returned untouched and one
Illegal-Reassignment diagnostic for x is appended), yet the assignment node is still
deleted (result node absent) because the deletion test never consults the binding
outcome — refuting the claim that deletion happens only when the binding succeeds. -/
theorem assignment_deleted_despite_failed_binding :
    optimizeAST exAssign2 (some exBlock) false exStateAfterFirst =
      .ok (none, PassState.mk [] [[("x", exNumLit "5" 5 (some 2))]] ["x"] 200) := rfl

/-- Concrete two-frame local stack whose top frame is empty and whose outer frame
binds x. -/
def exTwoFrameStack : Stack := [[], [("x", exNumLit "9" 40 none)]]

/-- C4 counterexample. Binding a declaration of x into a stack whose top frame is
empty but whose outer frame already binds x: the source pre-checks with a full-stack
lookup, so it appends an Illegal-Reassignment diagnostic and skips the insertion even
though the target (top) frame does not bind the key — refuting the claim that
declaring in an inner frame a key bound only in an outer frame is legal and silent. -/
theorem outer_frame_collision_diagnostic :
    bindIdentifierToScope exAssign1 exTwoFrameStack [] =
      some (exTwoFrameStack, ["x"]) := rfl

/-- Concrete type declaration node whose type tag is the plain name x. -/
def exTdX : ASTNode := .mk .TYPE_DECLARATION 11 (some 2) "x" none none none []

/-- C9 counterexample. Remapping a type declaration whose type name resolves in
scope to a number literal binding: the downcast to a type declaration yields null
and the subsequent getType call dereferences it, so the operation fails (modelled as
none) instead of leaving the node unchanged — refuting the claim that every
non-type-declaration resolution leaves the node unchanged without failure. -/
theorem remap_crashes_on_literal_binding :
    remapEnumTypeReferences exTdX exStateLocalX = none := rfl

/-- C2 amended. For every identifier occurrence that is not a declaration-site
identifier (its value slot, if any, is not a type declaration) and whose name
resolves — local scope first, hoisted scope as fallback — to a literal binding, the
pass returns a freshly constructed literal node of the same kind and value, drawing
its id from the id supply (so each substitution site gets its own copy, distinct
from the binding and from other sites), and the pass state is unchanged except for
the advanced id supply: in particular both scope stacks, and hence the literal node
stored in the binding, are untouched. -/
theorem substituteIdentifiers_fresh_literal (ast : ASTNode) (st : PassState) (v : ASTNode)
    (hval : ∀ w, ast.getValue = some w → ¬ w.getNodeType = NType.TYPE_DECLARATION)
    (hres : (if (stackLookup st.localScope ast.sval).isSome
             then stackLookup st.localScope ast.sval
             else stackLookup st.hoistedScope ast.sval) = some v)
    (hlit : isLiteralNodeType v.getNodeType = true) :
    substituteIdentifiers ast st =
      (LiteralNode v.getNodeType v.sval (some ast.getId) st.nextId,
       { st with nextId := st.nextId + 1 }) := by
  have hguard : (match ast.getValue with
      | some w => w.getNodeType == NType.TYPE_DECLARATION
      | none => false) = false := by
    cases hv : ast.getValue with
    | none => rfl
    | some w =>
      simp only [beq_eq_false_iff_ne, ne_eq]
      exact hval w hv
  unfold substituteIdentifiers
  simp only [hguard, Bool.false_eq_true, if_false, hres, hlit, if_true]

/-- C2 witness. The amended substitution theorem applied at the concrete use-site
identifier of x under the local binding of x to the literal 5: the result is a fresh
number literal with value 5, id 50 drawn from the supply, and the state advances
only its id supply. -/
theorem substituteIdentifiers_fresh_literal_witness :
    substituteIdentifiers exUseIdent exStateLocalX =
      (LiteralNode NType.NUMBER_LITERAL "5" (some 7) 50,
       PassState.mk [] [[("x", exNumLit "5" 20 none)]] [] 51) :=
  substituteIdentifiers_fresh_literal exUseIdent exStateLocalX (exNumLit "5" 20 none)
    (fun w hw => by simp [exUseIdent, ASTNode.getValue] at hw)
    rfl rfl

/-- The scope key the binding rule derives for an assignment: the qualified function
identifier when the right-hand side is a function declaration, the plain left-hand
identifier name otherwise. -/
def bindKey (lhs rhs : ASTNode) : String :=
  if rhs.getNodeType == NType.FUNCTION_DECLARATION then
    getQualifiedFunctionIdentifier lhs.sval rhs
  else lhs.sval

/-- C4 amended. A scope insertion performed by the binding rule raises an
Illegal-Reassignment diagnostic if and only if the derived key is already bound in
SOME frame of the target stack (the source pre-checks with a full, innermost-to-
outermost lookup, not a top-frame-only check): on such a hit exactly one diagnostic
naming the plain identifier is appended, the insertion is skipped and the stack —
hence the existing binding — is returned untouched; on a miss the right-hand side is
inserted into the top frame and no diagnostic is appended. Declaring in an inner
frame a key bound only in an outer frame of the same stack therefore DOES raise the
diagnostic, contrary to the original claim. -/
theorem bindIdentifierToScope_characterization (ast : ASTNode) (scope : Stack)
    (diags : List String) (lhs rhs : ASTNode)
    (hl : ast.getLeft = some lhs) (hr : ast.getRight = some rhs) :
    ((stackLookup scope (bindKey lhs rhs)).isSome = true →
        bindIdentifierToScope ast scope diags = some (scope, diags ++ [lhs.sval])) ∧
    (stackLookup scope (bindKey lhs rhs) = none →
        bindIdentifierToScope ast scope diags =
          some (stackInsert scope (bindKey lhs rhs) rhs, diags)) := by
  unfold bindIdentifierToScope bindKey
  rw [hl, hr]
  by_cases hfn : rhs.getNodeType = NType.FUNCTION_DECLARATION
  · simp only [hfn, beq_self_eq_true, if_true]
    cases h : stackLookup scope (getQualifiedFunctionIdentifier lhs.sval rhs) <;>
      simp [h, hfn]
  · have hfnb : (rhs.getNodeType == NType.FUNCTION_DECLARATION) = false := by
      simp [hfn]
    simp only [hfnb, Bool.false_eq_true, if_false]
    cases h : stackLookup scope lhs.sval <;> simp [h, hfn]

/-- C4 witness. The characterization applied at the first concrete declaration of x
against a one-frame stack that does not bind x: no diagnostic, and the literal
right-hand side is inserted into the top frame. -/
theorem bindIdentifierToScope_characterization_witness :
    bindIdentifierToScope exAssign1 [[]] [] =
      some ([[("x", exNumLit "5" 5 (some 2))]], []) :=
  (bindIdentifierToScope_characterization exAssign1 [[]] []
    (exDeclIdent "x" 3 4 2) (exNumLit "5" 5 (some 2)) rfl rfl).2 rfl

/-- C9 amended. The remap operation on a type declaration node: an unresolved type
name leaves the node unchanged without failure; a name resolving to a
type-declaration binding has the resolved tag written into the node; but a name
resolving to a non-type-declaration binding (such as a literal) makes the operation
fail — the source's unchecked downcast yields null and is dereferenced — rather
than leaving the node unchanged. -/
theorem remap_characterization (ast : ASTNode) (st : PassState) :
    (lookupInScope st ast.sval = none → remapEnumTypeReferences ast st = some ast) ∧
    (∀ r, lookupInScope st ast.sval = some r →
      (r.getNodeType = NType.TYPE_DECLARATION →
          remapEnumTypeReferences ast st = some (ast.setSval r.sval)) ∧
      (¬ r.getNodeType = NType.TYPE_DECLARATION →
          remapEnumTypeReferences ast st = none)) := by
  refine ⟨?_, ?_⟩
  · intro h
    unfold remapEnumTypeReferences
    rw [h]
  · intro r h
    refine ⟨?_, ?_⟩ <;> intro ht <;> unfold remapEnumTypeReferences <;> rw [h] <;> simp [ht]

/-- Concrete type declaration node whose type tag is the enum name E. -/
def exTdE : ASTNode := .mk .TYPE_DECLARATION 12 (some 2) "E" none none none []

/-- Pass state whose local scope binds E to a NUMBER type declaration, as enum
unpacking leaves it. -/
def exStateEnumE : PassState :=
  PassState.mk [] [[("E", TypeDeclarationNode DataTypes.NUMBER none 60)]] [] 70

/-- C9 witness. The remap characterization applied at the concrete type declaration
E under the enum-alias binding of E to a NUMBER type declaration: the node's tag is
rewritten to Number. -/
theorem remap_characterization_witness :
    remapEnumTypeReferences exTdE exStateEnumE = some (exTdE.setSval "Number") :=
  ((remap_characterization exTdE exStateEnumE).2
    (TypeDeclarationNode DataTypes.NUMBER none 60) rfl).1 rfl

/-- C3 amended. Dispatching an Assignment node that is not a capsule direct child:
the node is first bound into the local scope — whatever that binding's outcome,
collision diagnostic or successful insertion, recorded in the resulting scope s2 and
diagnostics d2 — and then deleted exactly when isLiteralAssignment holds (b) and the
node is not the last element of its stored parent block (c); the binding outcome
plays no role in the deletion decision, contrary to the original claim's "binding
succeeds" conjunct. -/
theorem assignment_deletion_characterization (ast p : ASTNode) (st : PassState)
    (s2 : Stack) (d2 : List String) (b c : Bool)
    (hty : ast.getNodeType = NType.ASSIGNMENT)
    (hbind : bindIdentifierToScope ast st.localScope st.diags = some (s2, d2))
    (hlit : isLiteralAssignment ast = some b)
    (hlast : isLastElementOfParentBlock (some p) ast = some c) :
    optimizeAST ast (some p) false st =
      .ok ((if b && !c then none else some ast),
           { st with localScope := s2, diags := d2 }) := by
  have h1 : (ast.getNodeType == NType.IDENTIFIER) = false := by rw [hty]; rfl
  have h2 : (ast.getNodeType == NType.TYPE_DECLARATION) = false := by rw [hty]; rfl
  have h3 : (ast.getNodeType == NType.ENUM) = false := by rw [hty]; rfl
  have h4 : (ast.getNodeType == NType.ASSIGNMENT) = true := by rw [hty]; rfl
  unfold optimizeAST
  simp only [h1, h2, h3, h4, Bool.false_eq_true, if_false, Bool.not_false,
    Bool.and_true, if_true, hbind, hlit, hlast]
  cases b <;> cases c <;> simp

/-- C3 witness. The deletion characterization applied at the first concrete literal
declaration of x inside the block, with an empty local frame: the binding succeeds
(x is inserted, no diagnostic), the assignment is a matching literal assignment and
not the block's last element, so the node is deleted. -/
theorem assignment_deletion_characterization_witness :
    optimizeAST exAssign1 (some exBlock) false (PassState.mk [] [[]] [] 0) =
      .ok (none, PassState.mk [] [[("x", exNumLit "5" 5 (some 2))]] [] 0) :=
  assignment_deletion_characterization exAssign1 exBlock (PassState.mk [] [[]] [] 0)
    [[("x", exNumLit "5" 5 (some 2))]] [] true false rfl rfl rfl rfl

/-- Value-slot accessor of a rebuilt node. -/
theorem ASTNode.getValue_setValue (n : ASTNode) (v : Option ASTNode) :
    (n.setValue v).getValue = v := by cases n; rfl

/-- Element accessor of a rebuilt node. -/
theorem ASTNode.getElements_setElements (n : ASTNode) (es : List ASTNode) :
    (n.setElements es).getElements = es := by cases n; rfl

/-- Zero-based positions of the enum nodes in an element list, in ascending order,
as hoistNecessary's walk records them. -/
def enumIdxs : List ASTNode → List Nat
  | [] => []
  | el :: rest =>
    (if el.getNodeType == NType.ENUM then [0] else []) ++ (enumIdxs rest).map (· + 1)

/-- Arithmetic shuffle for re-indexed position lists. -/
theorem map_add_succ_eq (l : List Nat) (i : Nat) :
    l.map (fun x => x + (i + 1)) = (l.map (fun x => x + 1)).map (fun x => x + i) := by
  induction l with
  | nil => rfl
  | cons x xs ih =>
    simp only [List.map_cons, ih, List.cons.injEq, and_true]
    omega

/-- The removal indices a successful hoisting walk records are exactly the recorded
prefix plus the positions of the enum nodes, offset by the walk's starting index. -/
theorem hoistLoop_idxs : ∀ (els : List ASTNode) (i : Nat) (scope : Stack)
    (diags : List String) (nextId : Nat) (acc : List Nat)
    (out : Stack × List String × Nat × List Nat),
    hoistLoop els i scope diags nextId acc = some out →
    out.2.2.2 = acc ++ (enumIdxs els).map (· + i) := by
  intro els
  induction els with
  | nil =>
    intro i scope diags nextId acc out h
    unfold hoistLoop at h
    cases h
    simp [enumIdxs]
  | cons el rest ih =>
    intro i scope diags nextId acc out h
    unfold hoistLoop at h
    by_cases he : el.getNodeType = NType.ENUM
    · simp only [he, beq_self_eq_true, if_true] at h
      cases hu : unpackEnumElementsInScope el scope diags nextId with
      | none => rw [hu] at h; cases h
      | some out2 =>
        obtain ⟨s2, d2, n2⟩ := out2
        rw [hu] at h
        rw [ih _ _ _ _ _ _ h]
        simp only [enumIdxs, he, beq_self_eq_true, if_true, List.map_append,
          List.map_cons, List.map_nil, List.append_assoc, List.singleton_append,
          List.map_map]
        rw [map_add_succ_eq (enumIdxs rest) i]
        simp [List.map_map, Nat.zero_add]
    · have heb : (el.getNodeType == NType.ENUM) = false := by simp [he]
      simp only [heb, Bool.false_eq_true, if_false] at h
      by_cases ha : el.getNodeType = NType.ASSIGNMENT
      · simp only [ha, beq_self_eq_true, if_true] at h
        cases hb : bindIdentifierToScope el scope diags with
        | none => rw [hb] at h; cases h
        | some out2 =>
          obtain ⟨s2, d2⟩ := out2
          rw [hb] at h
          rw [ih _ _ _ _ _ _ h]
          simp only [enumIdxs, heb, Bool.false_eq_true, if_false, List.nil_append,
            List.map_map]
          rw [map_add_succ_eq (enumIdxs rest) i]
          simp [List.map_map]
      · have hab : (el.getNodeType == NType.ASSIGNMENT) = false := by simp [ha]
        simp only [hab, Bool.false_eq_true, if_false] at h
        rw [ih _ _ _ _ _ _ h]
        simp only [enumIdxs, heb, Bool.false_eq_true, if_false, List.nil_append,
          List.map_map]
        rw [map_add_succ_eq (enumIdxs rest) i]
        simp [List.map_map]

/-- Erasing successor indices in reverse order leaves the head untouched. -/
theorem removeIndicesRev_map_succ (el : ASTNode) (rest : List ASTNode) (idxs : List Nat) :
    removeIndicesRev (el :: rest) (idxs.map (fun x => x + 1)) = el :: removeIndicesRev rest idxs := by
  induction idxs with
  | nil => rfl
  | cons i is ih =>
    unfold removeIndicesRev at ih ⊢
    simp only [List.map_cons, List.foldr_cons, ih, List.eraseIdx_cons_succ]

/-- Unfolding step of the reverse-order erasure. -/
theorem removeIndicesRev_cons (els : List ASTNode) (i : Nat) (is : List Nat) :
    removeIndicesRev els (i :: is) = (removeIndicesRev els is).eraseIdx i := rfl

/-- Erasing exactly the enum positions in reverse index order filters the enum nodes
out of the element list, keeping every other element in its original order. -/
theorem removeIndicesRev_enumIdxs : ∀ els : List ASTNode,
    removeIndicesRev els (enumIdxs els) = els.filter (fun el => !(el.getNodeType == NType.ENUM)) := by
  intro els
  induction els with
  | nil => rfl
  | cons el rest ih =>
    by_cases he : el.getNodeType = NType.ENUM
    · simp only [enumIdxs, he, beq_self_eq_true, if_true, List.singleton_append]
      rw [removeIndicesRev_cons, removeIndicesRev_map_succ el rest (enumIdxs rest),
        List.eraseIdx_cons_zero, ih]
      simp [List.filter_cons, he]
    · have heb : (el.getNodeType == NType.ENUM) = false := by simp [he]
      simp only [enumIdxs, heb, Bool.false_eq_true, if_false, List.nil_append]
      rw [removeIndicesRev_map_succ el rest (enumIdxs rest), ih]
      simp [List.filter_cons, heb]

/-- C5. After a successful hoisting phase the capsule's top-level element sequence
equals the original sequence with exactly the Enum nodes filtered out (all other
nodes kept, in their original relative order); furthermore the per-node traversal
never deletes a capsule direct child: any non-enum node dispatched with the
capsule-direct-child flag keeps a present result, and an Assignment so dispatched is
returned completely untouched — binding, elision and state changes are all skipped,
even for a literal assignment matching the elision kind/type rule. -/
theorem hoist_removes_exactly_enums :
    (∀ (capsule nodeList ast2 : ASTNode) (st st2 : PassState),
      capsule.getValue = some nodeList →
      hoistNecessary capsule st = some (ast2, st2) →
      ast2.getValue.map ASTNode.getElements =
        some (nodeList.getElements.filter (fun el => !(el.getNodeType == NType.ENUM)))) ∧
    (∀ (ast : ASTNode) (p : Option ASTNode) (st : PassState) (r : Option ASTNode)
        (st2 : PassState),
      ¬ ast.getNodeType = NType.ENUM →
      optimizeAST ast p true st = .ok (r, st2) → r.isSome = true) ∧
    (∀ (ast : ASTNode) (p : Option ASTNode) (st : PassState),
      ast.getNodeType = NType.ASSIGNMENT →
      optimizeAST ast p true st = .ok (some ast, st)) := by
  refine ⟨?_, ?_, ?_⟩
  · intro capsule nodeList ast2 st st2 hv hh
    unfold hoistNecessary at hh
    rw [hv] at hh
    dsimp only at hh
    cases hl : hoistLoop nodeList.getElements 0 ([] :: st.hoistedScope) st.diags st.nextId [] with
    | none => rw [hl] at hh; cases hh
    | some out =>
      obtain ⟨s2, d2, n2, idxs⟩ := out
      rw [hl] at hh
      have hidx := hoistLoop_idxs nodeList.getElements 0 ([] :: st.hoistedScope)
        st.diags st.nextId [] (s2, d2, n2, idxs) hl
      simp only [List.nil_append] at hidx
      have hidx0 : idxs = enumIdxs nodeList.getElements := by
        rw [hidx]
        simp
      cases hh
      rw [ASTNode.getValue_setValue, hidx0, removeIndicesRev_enumIdxs]
      simp [ASTNode.getElements_setElements]
  · intro ast p st r st2 hne hopt
    unfold optimizeAST at hopt
    by_cases h1 : ast.getNodeType = NType.IDENTIFIER
    · simp only [h1, beq_self_eq_true, if_true] at hopt
      cases hopt
      rfl
    · have h1b : (ast.getNodeType == NType.IDENTIFIER) = false := by simp [h1]
      simp only [h1b, Bool.false_eq_true, if_false] at hopt
      by_cases h2 : ast.getNodeType = NType.TYPE_DECLARATION
      · simp only [h2, beq_self_eq_true, if_true] at hopt
        cases hre : remapEnumTypeReferences ast st with
        | none => rw [hre] at hopt; cases hopt
        | some a2 => rw [hre] at hopt; cases hopt; rfl
      · have h2b : (ast.getNodeType == NType.TYPE_DECLARATION) = false := by simp [h2]
        simp only [h2b, Bool.false_eq_true, if_false] at hopt
        have h3b : (ast.getNodeType == NType.ENUM) = false := by simp [hne]
        simp only [h3b, Bool.false_eq_true, if_false, Bool.not_true, Bool.and_false] at hopt
        cases hopt
        rfl
  · intro ast p st hty
    unfold optimizeAST
    have h1 : (ast.getNodeType == NType.IDENTIFIER) = false := by rw [hty]; rfl
    have h2 : (ast.getNodeType == NType.TYPE_DECLARATION) = false := by rw [hty]; rfl
    have h3 : (ast.getNodeType == NType.ENUM) = false := by rw [hty]; rfl
    simp [h1, h2, h3]

/-- Concrete enum node E with the single element symbol :a. -/
def exEnumNode : ASTNode :=
  .mk .ENUM 20 (some 1) "" none none
    (some (.mk .IDENTIFIER 23 (some 20) "E" none none none []))
    [.mk .SYMBOL 21 (some 20) ":a" none none none []]

/-- Concrete top-level element list holding an enum between the two declarations. -/
def exNodeListWithEnum : ASTNode :=
  .mk .AST_NODE_LIST 1 (some 0) "" none none none [exAssign1, exEnumNode, exAssign2]

/-- Concrete capsule whose body holds an enum between two declarations. -/
def exCapsuleWithEnum : ASTNode :=
  .mk .CAPSULE 0 none "Main" none none (some exNodeListWithEnum) []

/-- The capsule exCapsuleWithEnum as the hoisting phase rewrites it: the enum node
erased from the body, both declarations kept in order. -/
def exHoistedCapsule : ASTNode :=
  exCapsuleWithEnum.setValue (some (exNodeListWithEnum.setElements [exAssign1, exAssign2]))

/-- The pass state the hoisting phase leaves on exCapsuleWithEnum: E bound to a
NUMBER type declaration, E.a to the literal 0, x to the first literal, and one
Illegal-Reassignment diagnostic for the second declaration of x. -/
def exHoistedState : PassState :=
  PassState.mk
    [[("E", TypeDeclarationNode DataTypes.NUMBER none 101),
      ("E.a", LiteralNode .NUMBER_LITERAL "0" none 100),
      ("x", exNumLit "5" 5 (some 2))]]
    [] ["x"] 102

/-- C5 witness. The hoisting-filter theorem applied at the concrete capsule holding
an enum between two declarations: the hoisted body drops exactly the enum, keeping
both assignments in order; and the traversal dispatch leaves the first
(elidable-looking) literal declaration untouched when flagged as a capsule direct
child. -/
theorem hoist_removes_exactly_enums_witness :
    exHoistedCapsule.getValue.map ASTNode.getElements = some [exAssign1, exAssign2] ∧
    optimizeAST exAssign1 (some exNodeList) true exStateAfterFirst =
      .ok (some exAssign1, exStateAfterFirst) :=
  ⟨(hoist_removes_exactly_enums.1 exCapsuleWithEnum exNodeListWithEnum exHoistedCapsule
      (PassState.mk [] [] [] 100) exHoistedState rfl rfl).trans rfl,
   hoist_removes_exactly_enums.2.2 exAssign1 (some exNodeList) exStateAfterFirst rfl⟩

/-- Character-level form of the type-tag serialization. -/
def charSer : List String → List Char
  | [] => []
  | t :: rest => '<' :: (t.data ++ ('>' :: charSer rest))

/-- The string serialization's character data is the character-level form. -/
theorem serializeTypeTags_data (ts : List String) :
    (serializeTypeTags ts).data = charSer ts := by
  induction ts with
  | nil => rfl
  | cons t rest ih =>
    unfold serializeTypeTags charSer
    rw [String.data_append, String.data_append, String.data_append, ih]
    simp

/-- Splitting at the first closing bracket: two bracket-free prefixes followed by a
closing bracket and arbitrary tails agree exactly when both components agree. -/
theorem append_gt_inj : ∀ (a b u v : List Char), ('>' : Char) ∉ a → ('>' : Char) ∉ b →
    a ++ '>' :: u = b ++ '>' :: v → a = b ∧ u = v := by
  intro a
  induction a with
  | nil =>
    intro b u v _ hb h
    cases b with
    | nil => simpa using h
    | cons c bs =>
      simp only [List.nil_append, List.cons_append, List.cons.injEq] at h
      exact absurd (h.1 ▸ List.mem_cons_self c bs) hb
  | cons c as ih =>
    intro b u v ha hb h
    cases b with
    | nil =>
      simp only [List.cons_append, List.nil_append, List.cons.injEq] at h
      exact absurd (h.1 ▸ List.mem_cons_self c as) ha
    | cons d bs =>
      simp only [List.cons_append, List.cons.injEq] at h
      obtain ⟨hcd, h2⟩ := h
      have hrec := ih bs u v (fun hm => ha (List.mem_cons_of_mem _ hm))
        (fun hm => hb (List.mem_cons_of_mem _ hm)) h2
      exact ⟨by rw [hcd, hrec.1], hrec.2⟩

/-- The character-level serialization is injective on lists of tags that contain no
closing bracket. -/
theorem charSer_inj : ∀ (ts1 ts2 : List String),
    (∀ t ∈ ts1, ('>' : Char) ∉ t.data) → (∀ t ∈ ts2, ('>' : Char) ∉ t.data) →
    charSer ts1 = charSer ts2 → ts1 = ts2 := by
  intro ts1
  induction ts1 with
  | nil =>
    intro ts2 _ _ h
    cases ts2 with
    | nil => rfl
    | cons s rest2 => simp [charSer] at h
  | cons t rest ih =>
    intro ts2 h1 h2 h
    cases ts2 with
    | nil => simp [charSer] at h
    | cons s rest2 =>
      simp only [charSer, List.cons.injEq, true_and] at h
      have hsplit := append_gt_inj t.data s.data (charSer rest) (charSer rest2)
        (h1 t (List.mem_cons_self t rest)) (h2 s (List.mem_cons_self s rest2)) h
      have hts : t = s := by
        apply String.ext
        exact hsplit.1
      have hrest := ih rest2 (fun x hx => h1 x (List.mem_cons_of_mem t hx))
        (fun x hx => h2 x (List.mem_cons_of_mem s hx)) hsplit.2
      rw [hts, hrest]

/-- C7. The two naming utilities agree: applied to a declaration and to that
declaration's standalone type signature they produce byte-identical keys; and for a
fixed base name the key is injective in the parameter type tag list (assuming tags
free of the closing bracket character, as all primitive and identifier-shaped tags
are), so declarations differing in arity or parameter types receive distinct keys. -/
theorem qualifiedFunctionIdentifier_agreement_and_distinct :
    (∀ (name : String) (decl : ASTNode),
      getQualifiedFunctionIdentifier name decl =
        getQualifiedFunctionIdentifierFromTypeSignature name (functionTypeSignatureOf decl)) ∧
    (∀ (name : String) (d1 d2 : ASTNode),
      (∀ t ∈ declarationParamTypeTags d1, ('>' : Char) ∉ t.data) →
      (∀ t ∈ declarationParamTypeTags d2, ('>' : Char) ∉ t.data) →
      declarationParamTypeTags d1 ≠ declarationParamTypeTags d2 →
      getQualifiedFunctionIdentifier name d1 ≠ getQualifiedFunctionIdentifier name d2) := by
  constructor
  · intro name decl
    unfold getQualifiedFunctionIdentifier getQualifiedFunctionIdentifierFromTypeSignature
    congr 1
    congr 1
    unfold typeSignatureParamTags functionTypeSignatureOf declarationParamTypeTags
    simp only [ASTNode.getElements, List.map_map]
    apply List.map_congr_left
    intro p _
    simp only [Function.comp_apply]
    cases hp : p.getValue <;> rfl
  · intro name d1 d2 hf1 hf2 hne heq
    apply hne
    apply charSer_inj _ _ hf1 hf2
    rw [← serializeTypeTags_data, ← serializeTypeTags_data]
    have hdata := congrArg String.data heq
    unfold getQualifiedFunctionIdentifier at hdata
    rw [String.data_append, String.data_append] at hdata
    have := List.append_cancel_left hdata
    rw [this]

/-- Concrete function parameter a: Number. -/
def exParamNum : ASTNode :=
  .mk .IDENTIFIER 31 (some 30) "a" none none
    (some (.mk .TYPE_DECLARATION 32 (some 31) "Number" none none none [])) []

/-- Concrete function parameter b: String. -/
def exParamStr : ASTNode :=
  .mk .IDENTIFIER 33 (some 34) "b" none none
    (some (.mk .TYPE_DECLARATION 35 (some 33) "String" none none none [])) []

/-- Concrete one-parameter function declaration f(a: Number). -/
def exFnDecl1 : ASTNode := .mk .FUNCTION_DECLARATION 30 (some 2) "" none none none [exParamNum]

/-- Concrete two-parameter function declaration f(a: Number, b: String), overloading
the same base name with different arity and types. -/
def exFnDecl2 : ASTNode :=
  .mk .FUNCTION_DECLARATION 34 (some 2) "" none none none [exParamNum, exParamStr]

/-- C7 witness. The agreement and distinctness applied at the two concrete
overloads of f: the declaration path and the signature path agree on the key of the
first overload, and the two overloads receive distinct keys. -/
theorem qualifiedFunctionIdentifier_agreement_and_distinct_witness :
    getQualifiedFunctionIdentifier "f" exFnDecl1 =
      getQualifiedFunctionIdentifierFromTypeSignature "f" (functionTypeSignatureOf exFnDecl1) ∧
    getQualifiedFunctionIdentifier "f" exFnDecl1 ≠ getQualifiedFunctionIdentifier "f" exFnDecl2 :=
  ⟨qualifiedFunctionIdentifier_agreement_and_distinct.1 "f" exFnDecl1,
   qualifiedFunctionIdentifier_agreement_and_distinct.2 "f" exFnDecl1 exFnDecl2
     (by decide) (by decide) (by decide)⟩

/-- A whole-stack lookup miss is in particular a top-frame miss. -/
theorem stackLookup_cons_none_top (f : Frame) (rest : Stack) (k : String)
    (h : stackLookup (f :: rest) k = none) : frameLookup f k = none := by
  unfold stackLookup at h
  cases hf : frameLookup f k with
  | none => rfl
  | some v => rw [hf] at h; cases h

/-- Unfolding step of the frame lookup. -/
theorem frameLookup_cons (k k2 : String) (v : ASTNode) (f : Frame) :
    frameLookup ((k, v) :: f) k2 = if k = k2 then some v else frameLookup f k2 := rfl

/-- Unfolding step of the stack lookup. -/
theorem stackLookup_cons (f : Frame) (rest : Stack) (k : String) :
    stackLookup (f :: rest) k =
      match frameLookup f k with
      | some v => some v
      | none => stackLookup rest k := rfl

/-- Inserting a key free in the top frame prepends the binding to the top frame. -/
theorem stackInsert_cons_of_topfree (f : Frame) (rest : Stack) (k : String) (v : ASTNode)
    (h : frameLookup f k = none) : stackInsert (f :: rest) k v = ((k, v) :: f) :: rest := by
  simp [stackInsert, h]

/-- Looking up the freshly inserted key finds the new binding. -/
theorem stackLookup_insert_self (f : Frame) (rest : Stack) (k : String) (v : ASTNode)
    (h : frameLookup f k = none) :
    stackLookup (stackInsert (f :: rest) k v) k = some v := by
  rw [stackInsert_cons_of_topfree f rest k v h, stackLookup_cons, frameLookup_cons, if_pos rfl]

/-- Inserting a different key leaves the top frame's view of a key unchanged. -/
theorem frameLookup_insert_other (f : Frame) (k k2 : String) (v : ASTNode) (hne : k ≠ k2) :
    frameLookup ((k, v) :: f) k2 = frameLookup f k2 := by
  rw [frameLookup_cons, if_neg hne]

/-- Inserting one key leaves lookups of every other key unchanged. -/
theorem stackLookup_insert_other (s : Stack) (k k2 : String) (v : ASTNode) (hne : k2 ≠ k) :
    stackLookup (stackInsert s k v) k2 = stackLookup s k2 := by
  cases s with
  | nil => rfl
  | cons f rest =>
    by_cases hf : (frameLookup f k).isSome
    · simp [stackInsert, hf]
    · have hfn : frameLookup f k = none := by
        cases hfk : frameLookup f k
        · rfl
        · rw [hfk] at hf; simp at hf
      rw [stackInsert_cons_of_topfree f rest k v hfn, stackLookup_cons, stackLookup_cons,
        frameLookup_insert_other f k k2 v (fun h => hne h.symm)]

/-- An element key is never the bare base identifier: it is strictly longer. -/
theorem enumElKey_ne_base (base : String) (el : ASTNode) : enumElKey base el ≠ base := by
  intro h
  have hlen := congrArg String.length h
  unfold enumElKey at hlen
  rw [String.length_append, String.length_append] at hlen
  have hdot : ("." : String).length = 1 := rfl
  rw [hdot] at hlen
  omega

/-- Characterization of a collision-free element loop run: starting at index i with
every element key missing from the whole stack and pairwise distinct, the loop
inserts one fresh Number literal per element (holding the decimal rendering of its
running index, with consecutively drawn ids), appends no diagnostic, afterwards
binds the bare base identifier to a fresh NUMBER type declaration, and leaves the
lookup of every unrelated key unchanged. -/
theorem unpackGo_ok (base : String) : ∀ (els : List ASTNode) (i : Nat) (f : Frame)
    (rest : Stack) (diags : List String) (nextId : Nat),
    (∀ el ∈ els, el.getNodeType = NType.SYMBOL) →
    (∀ el ∈ els, stackLookup (f :: rest) (enumElKey base el) = none) →
    (els.map (enumElKey base)).Nodup →
    ∃ s2, unpackGo base i els (f :: rest) diags nextId =
        some (s2, diags, nextId + els.length + 1) ∧
      (∀ j (hj : j < els.length),
        stackLookup s2 (enumElKey base (els.get ⟨j, hj⟩)) =
          some (LiteralNode .NUMBER_LITERAL (toString (i + j)) none (nextId + j))) ∧
      (∀ k, (∀ el ∈ els, k ≠ enumElKey base el) → k ≠ base →
        stackLookup s2 k = stackLookup (f :: rest) k) ∧
      (frameLookup f base = none →
        stackLookup s2 base =
          some (TypeDeclarationNode DataTypes.NUMBER none (nextId + els.length))) := by
  intro els
  induction els with
  | nil =>
    intro i f rest diags nextId hsym hfree hnodup
    refine ⟨stackInsert (f :: rest) base (TypeDeclarationNode DataTypes.NUMBER none nextId),
      by simp [unpackGo], ?_, ?_, ?_⟩
    · intro j hj
      simp at hj
    · intro k _ hkb
      exact stackLookup_insert_other (f :: rest) base k _ hkb
    · intro hbf
      have h := stackLookup_insert_self f rest base
        (TypeDeclarationNode DataTypes.NUMBER none nextId) hbf
      simpa using h
  | cons el els' ih =>
    intro i f rest diags nextId hsym hfree hnodup
    have hs0 : el.getNodeType = NType.SYMBOL := hsym el (List.mem_cons_self el els')
    have hf0 : stackLookup (f :: rest) (enumElKey base el) = none :=
      hfree el (List.mem_cons_self el els')
    have hfr0 : frameLookup f (enumElKey base el) = none :=
      stackLookup_cons_none_top f rest _ hf0
    have hins := stackInsert_cons_of_topfree f rest (enumElKey base el)
      (LiteralNode .NUMBER_LITERAL (toString i) none nextId) hfr0
    rw [List.map_cons, List.nodup_cons] at hnodup
    obtain ⟨hk0notin, hnodup2⟩ := hnodup
    have hkey_ne : ∀ e ∈ els', enumElKey base e ≠ enumElKey base el := by
      intro e he heq
      exact hk0notin (heq ▸ List.mem_map_of_mem (enumElKey base) he)
    have hstep : unpackGo base i (el :: els') (f :: rest) diags nextId =
        unpackGo base (i + 1) els'
          (((enumElKey base el, LiteralNode .NUMBER_LITERAL (toString i) none nextId) :: f) :: rest)
          diags (nextId + 1) := by
      simp only [unpackGo, hs0, beq_self_eq_true, if_true, hf0]
      rw [hins]
    obtain ⟨s2, hrun, hlook, hpres, hbase⟩ :=
      ih (i + 1) ((enumElKey base el, LiteralNode .NUMBER_LITERAL (toString i) none nextId) :: f)
        rest diags (nextId + 1)
        (fun e he => hsym e (List.mem_cons_of_mem el he))
        (fun e he => by
          rw [← hins, stackLookup_insert_other (f :: rest) (enumElKey base el)
            (enumElKey base e) _ (hkey_ne e he)]
          exact hfree e (List.mem_cons_of_mem el he))
        hnodup2
    refine ⟨s2, ?_, ?_, ?_, ?_⟩
    · rw [hstep, hrun]
      simp only [List.length_cons]
      rw [show nextId + 1 + els'.length + 1 = nextId + (els'.length + 1) + 1 from by omega]
    · intro j hj
      cases j with
      | zero =>
        have hget : (el :: els').get ⟨0, hj⟩ = el := rfl
        rw [hget]
        have hp := hpres (enumElKey base el) (fun e he => (hkey_ne e he).symm)
          (enumElKey_ne_base base el)
        rw [hp, stackLookup_cons, frameLookup_cons, if_pos rfl]
        simp
      | succ j2 =>
        have hj2 : j2 < els'.length := by
          simp only [List.length_cons] at hj
          omega
        have hget : (el :: els').get ⟨j2 + 1, hj⟩ = els'.get ⟨j2, hj2⟩ := rfl
        rw [hget]
        have h := hlook j2 hj2
        rw [show i + 1 + j2 = i + (j2 + 1) from by omega,
          show nextId + 1 + j2 = nextId + (j2 + 1) from by omega] at h
        exact h
    · intro k hk hkb
      have hp := hpres k (fun e he => hk e (List.mem_cons_of_mem el he)) hkb
      rw [hp, ← hins,
        stackLookup_insert_other (f :: rest) (enumElKey base el) k _ (hk el (List.mem_cons_self el els'))]
    · intro hbf
      have hbf2 : frameLookup
          ((enumElKey base el, LiteralNode .NUMBER_LITERAL (toString i) none nextId) :: f) base = none := by
        rw [frameLookup_insert_other f (enumElKey base el) base _ (enumElKey_ne_base base el)]
        exact hbf
      have h := hbase hbf2
      rw [show nextId + 1 + els'.length = nextId + (els'.length + 1) from by omega] at h
      simpa using h

/-- C1. Unpacking an enum with base identifier E and symbol elements into a scope in
which none of the derived element keys is bound anywhere in the stack (pairwise
distinct among themselves) and the bare base identifier is free in the top frame:
afterwards looking up E.name-of-element-j returns a Number literal node holding the
element's zero-based declaration index j, looking up E returns a type declaration of
primitive kind NUMBER, and no diagnostic is appended. -/
theorem enum_unpack_lookup_correct (node : ASTNode) (f : Frame) (rest : Stack)
    (diags : List String) (nextId : Nat) (base : String)
    (hbase : enumBaseIdentifier node = some base)
    (hsym : ∀ el ∈ node.getElements, el.getNodeType = NType.SYMBOL)
    (hfree : ∀ el ∈ node.getElements, stackLookup (f :: rest) (enumElKey base el) = none)
    (hnodup : (node.getElements.map (enumElKey base)).Nodup)
    (hbfree : frameLookup f base = none) :
    ∃ s2, unpackEnumElementsInScope node (f :: rest) diags nextId =
        some (s2, diags, nextId + node.getElements.length + 1) ∧
      (∀ j (hj : j < node.getElements.length),
        stackLookup s2 (enumElKey base (node.getElements.get ⟨j, hj⟩)) =
          some (LiteralNode .NUMBER_LITERAL (toString j) none (nextId + j))) ∧
      stackLookup s2 base =
        some (TypeDeclarationNode DataTypes.NUMBER none (nextId + node.getElements.length)) := by
  obtain ⟨s2, hrun, hlook, hpres, hb⟩ :=
    unpackGo_ok base node.getElements 0 f rest diags nextId hsym hfree hnodup
  refine ⟨s2, ?_, ?_, hb hbfree⟩
  · unfold unpackEnumElementsInScope
    rw [hbase]
    exact hrun
  · intro j hj
    have h := hlook j hj
    rw [show 0 + j = j from by omega] at h
    exact h

/-- Concrete enum node Enum E with elements :a and :b. -/
def exEnum2 : ASTNode :=
  .mk .ENUM 40 (some 1) "" none none
    (some (.mk .IDENTIFIER 43 (some 40) "E" none none none []))
    [.mk .SYMBOL 41 (some 40) ":a" none none none [],
     .mk .SYMBOL 42 (some 40) ":b" none none none []]

/-- The scope left by unpacking exEnum2 into a single fresh frame with id supply
starting at 300. -/
def exUnpackedScope : Stack :=
  [[("E", TypeDeclarationNode DataTypes.NUMBER none 302),
    ("E.b", LiteralNode .NUMBER_LITERAL "1" none 301),
    ("E.a", LiteralNode .NUMBER_LITERAL "0" none 300)]]

/-- C1 witness. The unpacking theorem applied at the concrete enum E with elements
:a and :b into one empty frame: E.a resolves to the literal 0, E.b to the literal 1,
E to a NUMBER type declaration, with no diagnostic. -/
theorem enum_unpack_lookup_correct_witness :
    unpackEnumElementsInScope exEnum2 [[]] [] 300 = some (exUnpackedScope, [], 303) ∧
    stackLookup exUnpackedScope "E.a" = some (LiteralNode .NUMBER_LITERAL "0" none 300) ∧
    stackLookup exUnpackedScope "E.b" = some (LiteralNode .NUMBER_LITERAL "1" none 301) ∧
    stackLookup exUnpackedScope "E" =
      some (TypeDeclarationNode DataTypes.NUMBER none 302) := by
  obtain ⟨s2, hrun, hlook, hb⟩ := enum_unpack_lookup_correct exEnum2 [] [] [] 300 "E"
    rfl
    (by
      intro el hel
      simp only [exEnum2, ASTNode.getElements, List.mem_cons, List.not_mem_nil, or_false] at hel
      rcases hel with rfl | rfl <;> rfl)
    (by
      intro el hel
      simp only [exEnum2, ASTNode.getElements, List.mem_cons, List.not_mem_nil, or_false] at hel
      rcases hel with rfl | rfl <;> rfl)
    (by decide)
    rfl
  have hconc : unpackEnumElementsInScope exEnum2 [[]] [] 300 =
      some (exUnpackedScope, [], 303) := rfl
  rw [hconc] at hrun
  simp only [Option.some.injEq, Prod.mk.injEq] at hrun
  obtain ⟨h1, -⟩ := hrun
  refine ⟨hconc, ?_, ?_, ?_⟩
  · have h := hlook 0 (by decide)
    rw [← h1] at h
    exact h
  · have h := hlook 1 (by decide)
    rw [← h1] at h
    exact h
  · rw [← h1] at hb
    exact hb

/-- Characterization of an element loop run that hits a collision: after a
collision-free prefix, the first element whose key is already bound stops the loop
at once — exactly one diagnostic naming that key is appended, the colliding element
and everything after it (the trailing base binding included) is skipped, and only
the prefix's literals have been inserted. -/
theorem unpackGo_collision (base : String) : ∀ (pre : List ASTNode) (col : ASTNode)
    (post : List ASTNode) (i : Nat) (f : Frame) (rest : Stack) (diags : List String)
    (nextId : Nat),
    (∀ el ∈ pre, el.getNodeType = NType.SYMBOL) →
    col.getNodeType = NType.SYMBOL →
    (∀ el ∈ pre, stackLookup (f :: rest) (enumElKey base el) = none) →
    (pre.map (enumElKey base)).Nodup →
    (∀ el ∈ pre, enumElKey base col ≠ enumElKey base el) →
    (stackLookup (f :: rest) (enumElKey base col)).isSome = true →
    ∃ s2, unpackGo base i (pre ++ col :: post) (f :: rest) diags nextId =
        some (s2, diags ++ [enumElKey base col], nextId + pre.length) ∧
      (∀ j (hj : j < pre.length),
        stackLookup s2 (enumElKey base (pre.get ⟨j, hj⟩)) =
          some (LiteralNode .NUMBER_LITERAL (toString (i + j)) none (nextId + j))) ∧
      (∀ k, (∀ el ∈ pre, k ≠ enumElKey base el) → stackLookup s2 k = stackLookup (f :: rest) k) := by
  intro pre
  induction pre with
  | nil =>
    intro col post i f rest diags nextId _ hscol _ _ _ hcol
    obtain ⟨w, hw⟩ := Option.isSome_iff_exists.mp hcol
    refine ⟨f :: rest, ?_, ?_, ?_⟩
    · simp only [List.nil_append, unpackGo, hscol, beq_self_eq_true, if_true, hw]
      simp
    · intro j hj
      simp at hj
    · intro k _
      rfl
  | cons el pre' ih =>
    intro col post i f rest diags nextId hsym hscol hfree hnodup hcolne hcol
    have hs0 : el.getNodeType = NType.SYMBOL := hsym el (List.mem_cons_self el pre')
    have hf0 : stackLookup (f :: rest) (enumElKey base el) = none :=
      hfree el (List.mem_cons_self el pre')
    have hfr0 : frameLookup f (enumElKey base el) = none :=
      stackLookup_cons_none_top f rest _ hf0
    have hins := stackInsert_cons_of_topfree f rest (enumElKey base el)
      (LiteralNode .NUMBER_LITERAL (toString i) none nextId) hfr0
    rw [List.map_cons, List.nodup_cons] at hnodup
    obtain ⟨hk0notin, hnodup2⟩ := hnodup
    have hkey_ne : ∀ e ∈ pre', enumElKey base e ≠ enumElKey base el := by
      intro e he heq
      exact hk0notin (heq ▸ List.mem_map_of_mem (enumElKey base) he)
    have hcol0 : enumElKey base col ≠ enumElKey base el :=
      hcolne el (List.mem_cons_self el pre')
    have hstep : unpackGo base i ((el :: pre') ++ col :: post) (f :: rest) diags nextId =
        unpackGo base (i + 1) (pre' ++ col :: post)
          (((enumElKey base el, LiteralNode .NUMBER_LITERAL (toString i) none nextId) :: f) :: rest)
          diags (nextId + 1) := by
      simp only [List.cons_append, unpackGo, hs0, beq_self_eq_true, if_true, hf0]
      rw [hins]
      rfl
    obtain ⟨s2, hrun, hlook, hpres⟩ :=
      ih col post (i + 1)
        ((enumElKey base el, LiteralNode .NUMBER_LITERAL (toString i) none nextId) :: f)
        rest diags (nextId + 1)
        (fun e he => hsym e (List.mem_cons_of_mem el he))
        hscol
        (fun e he => by
          rw [← hins, stackLookup_insert_other (f :: rest) (enumElKey base el)
            (enumElKey base e) _ (hkey_ne e he)]
          exact hfree e (List.mem_cons_of_mem el he))
        hnodup2
        (fun e he => hcolne e (List.mem_cons_of_mem el he))
        (by
          rw [← hins, stackLookup_insert_other (f :: rest) (enumElKey base el)
            (enumElKey base col) _ hcol0]
          exact hcol)
    refine ⟨s2, ?_, ?_, ?_⟩
    · rw [hstep, hrun]
      simp only [List.length_cons]
      rw [show nextId + 1 + pre'.length = nextId + (pre'.length + 1) from by omega]
    · intro j hj
      cases j with
      | zero =>
        have hget : (el :: pre').get ⟨0, hj⟩ = el := rfl
        rw [hget]
        have hp := hpres (enumElKey base el) (fun e he => (hkey_ne e he).symm)
        rw [hp, stackLookup_cons, frameLookup_cons, if_pos rfl]
        simp
      | succ j2 =>
        have hj2 : j2 < pre'.length := by
          simp only [List.length_cons] at hj
          omega
        have hget : (el :: pre').get ⟨j2 + 1, hj⟩ = pre'.get ⟨j2, hj2⟩ := rfl
        rw [hget]
        have h := hlook j2 hj2
        rw [show i + 1 + j2 = i + (j2 + 1) from by omega,
          show nextId + 1 + j2 = nextId + (j2 + 1) from by omega] at h
        exact h
    · intro k hk
      have hp := hpres k (fun e he => hk e (List.mem_cons_of_mem el he))
      rw [hp, ← hins,
        stackLookup_insert_other (f :: rest) (enumElKey base el) k _ (hk el (List.mem_cons_self el pre'))]

/-- C10. When unpacking an enum hits a key collision at the first element whose key
is already bound, processing of that enum stops immediately: the elements before it
stay bound to their index literals, the colliding element and everything after it is
not bound (every key other than the prefix's keys looks up unchanged — in particular
the bare base identifier receives no binding, losing the NUMBER alias), exactly one
diagnostic naming the colliding key is appended, and the Enum node dispatched by the
per-node traversal is still deleted (result node absent) despite the aborted
unpacking. -/
theorem enum_unpack_collision_aborts (node : ASTNode) (f : Frame) (rest : Stack)
    (diags : List String) (nextId : Nat) (base : String) (pre : List ASTNode)
    (col : ASTNode) (post : List ASTNode)
    (hbase : enumBaseIdentifier node = some base)
    (hels : node.getElements = pre ++ col :: post)
    (hsym : ∀ el ∈ pre, el.getNodeType = NType.SYMBOL)
    (hscol : col.getNodeType = NType.SYMBOL)
    (hfree : ∀ el ∈ pre, stackLookup (f :: rest) (enumElKey base el) = none)
    (hnodup : (pre.map (enumElKey base)).Nodup)
    (hcolne : ∀ el ∈ pre, enumElKey base col ≠ enumElKey base el)
    (hcol : (stackLookup (f :: rest) (enumElKey base col)).isSome = true) :
    ∃ s2, unpackEnumElementsInScope node (f :: rest) diags nextId =
        some (s2, diags ++ [enumElKey base col], nextId + pre.length) ∧
      (∀ j (hj : j < pre.length),
        stackLookup s2 (enumElKey base (pre.get ⟨j, hj⟩)) =
          some (LiteralNode .NUMBER_LITERAL (toString j) none (nextId + j))) ∧
      (∀ k, (∀ el ∈ pre, k ≠ enumElKey base el) → stackLookup s2 k = stackLookup (f :: rest) k) ∧
      stackLookup s2 base = stackLookup (f :: rest) base ∧
      (∀ (p : Option ASTNode) (flag : Bool) (st : PassState),
        node.getNodeType = NType.ENUM → st.localScope = f :: rest →
        st.diags = diags → st.nextId = nextId →
        optimizeAST node p flag st =
          .ok (none,
            { st with localScope := s2, diags := diags ++ [enumElKey base col], nextId := nextId + pre.length })) := by
  obtain ⟨s2, hrun, hlook, hpres⟩ :=
    unpackGo_collision base pre col post 0 f rest diags nextId hsym hscol hfree hnodup hcolne hcol
  have hrun2 : unpackEnumElementsInScope node (f :: rest) diags nextId =
      some (s2, diags ++ [enumElKey base col], nextId + pre.length) := by
    unfold unpackEnumElementsInScope
    rw [hbase, hels]
    exact hrun
  refine ⟨s2, hrun2, ?_, hpres, ?_, ?_⟩
  · intro j hj
    have h := hlook j hj
    rw [show 0 + j = j from by omega] at h
    exact h
  · exact hpres base (fun el _ => (enumElKey_ne_base base el).symm)
  · intro p flag st henum hls hd hn
    have h1 : (node.getNodeType == NType.IDENTIFIER) = false := by rw [henum]; rfl
    have h2 : (node.getNodeType == NType.TYPE_DECLARATION) = false := by rw [henum]; rfl
    have h3 : (node.getNodeType == NType.ENUM) = true := by rw [henum]; rfl
    unfold optimizeAST
    simp only [h1, h2, h3, Bool.false_eq_true, if_false, if_true]
    rw [hls, hd, hn, hrun2]

/-- Stack whose single frame already binds the key E.b, provoking the collision. -/
def exCollisionFrame : Frame := [("E.b", exNumLit "9" 40 none)]

/-- The scope left by the aborted unpacking of exEnum2 over exCollisionFrame: only
E.a was bound; E.b kept its old binding and E was never bound. -/
def exCollisionScope : Stack :=
  [[("E.a", LiteralNode .NUMBER_LITERAL "0" none 300), ("E.b", exNumLit "9" 40 none)]]

/-- C10 witness. The collision theorem applied at the concrete enum E with elements
:a and :b over a frame already binding E.b: E.a is bound to the literal 0, one
diagnostic E.b is appended, E stays unbound, and the enum node dispatched through
optimizeAST is still deleted. -/
theorem enum_unpack_collision_aborts_witness :
    unpackEnumElementsInScope exEnum2 [exCollisionFrame] [] 300 =
      some (exCollisionScope, ["E.b"], 301) ∧
    stackLookup exCollisionScope "E.a" = some (LiteralNode .NUMBER_LITERAL "0" none 300) ∧
    stackLookup exCollisionScope "E" = none ∧
    optimizeAST exEnum2 none false (PassState.mk [] [exCollisionFrame] [] 300) =
      .ok (none, PassState.mk [] exCollisionScope ["E.b"] 301) := by
  obtain ⟨s2, hrun, hlook, hpres, hbase2, hopt⟩ :=
    enum_unpack_collision_aborts exEnum2 exCollisionFrame [] [] 300 "E"
      [.mk .SYMBOL 41 (some 40) ":a" none none none []]
      (.mk .SYMBOL 42 (some 40) ":b" none none none []) []
      rfl rfl
      (by
        intro el hel
        simp only [List.mem_cons, List.not_mem_nil, or_false] at hel
        subst hel
        rfl)
      rfl
      (by
        intro el hel
        simp only [List.mem_cons, List.not_mem_nil, or_false] at hel
        subst hel
        rfl)
      (by decide)
      (by
        intro el hel
        simp only [List.mem_cons, List.not_mem_nil, or_false] at hel
        subst hel
        decide)
      rfl
  have hconc : unpackEnumElementsInScope exEnum2 [exCollisionFrame] [] 300 =
      some (exCollisionScope, ["E.b"], 301) := rfl
  rw [hconc] at hrun
  simp only [Option.some.injEq, Prod.mk.injEq] at hrun
  obtain ⟨h1, -⟩ := hrun
  refine ⟨hconc, ?_, ?_, ?_⟩
  · have h := hlook 0 (by decide)
    rw [← h1] at h
    exact h
  · rw [← h1] at hbase2
    exact hbase2
  · have h := hopt none false (PassState.mk [] [exCollisionFrame] [] 300) rfl rfl rfl rfl
    rw [← h1] at h
    exact h

end Theta
